import Mathlib

/-!
Verification of the GUSMap likelihood core (src/src/likelihoods.c).

The C file implements three scaled forward-algorithm likelihood functions
over a 4-state hidden Markov model:
  ll_fs_scaled_err_c      (phased, non-sex-specific, per-marker error rate),
  ll_fs_ss_scaled_err_c   (phased, sex-specific, emissions supplied),
  ll_fs_up_ss_scaled_err_c (unphased, sex-specific, scalar error rate).

Shallow embedding conventions:
  * C doubles are modelled as rationals; flat (1-D) matrices are total
    functions on flat indices; array reads never fault.
  * The C log() is kept abstract as a parameter lg, and each individual's
    log-likelihood contribution is represented by the list of per-marker
    scaling weights; applying lg and summing recovers the accumulator.
  * Qentry / Qentry_up (emission-class lookup, defined in probFun.h which
    is not part of this excerpt) are kept abstract as function parameters,
    as the spec directs (an opaque deterministic lookup).
  * Tmat / Tmat_ss (also from probFun.h) are modelled from the spec.
-/

/-- Modelled from the spec: the decomposition of the 4 hidden states into a
paternal-origin indicator and a maternal-origin indicator (the cross
{paternal origin 1 or 2} x {maternal origin 1 or 2}). -/
def stateBits : Fin 4 → Bool × Bool
  | 0 => (false, false)
  | 1 => (false, true)
  | 2 => (true, false)
  | 3 => (true, true)

/-- One parental meiosis between adjacent markers: the origin indicator
flips with probability r and stays with probability 1 - r. -/
def flipProb (b1 b2 : Bool) (r : ℚ) : ℚ :=
  if b1 = b2 then 1 - r else r

/-- Modelled from the spec: `Tmat` of probFun.h is missing from the excerpt.
The transition probability factors as the product of two independent origin
bit flips, each flipping with probability r and staying with 1 - r. -/
def Tmat (s1 s2 : Fin 4) (r : ℚ) : ℚ :=
  flipProb (stateBits s1).1 (stateBits s2).1 r *
    flipProb (stateBits s1).2 (stateBits s2).2 r

/-- Modelled from the spec: `Tmat_ss` of probFun.h is missing from the
excerpt. Sex-specific variant of the transition model: the paternal-origin
bit flips with probability rp, the maternal-origin bit with probability rm. -/
def Tmat_ss (s1 s2 : Fin 4) (rp rm : ℚ) : ℚ :=
  flipProb (stateBits s1).1 (stateBits s2).1 rp *
    flipProb (stateBits s1).2 (stateBits s2).2 rm

/-- The emission-density build of ll_fs_scaled_err_c (lines 93-99): the flat
Kaa table, cell index = ind + snp * nInd, so the marker of a cell is
index / nInd.  Kaa = bcoef * (1 - ep[snp])^ref * ep[snp]^alt. -/
def kaaFlat (bcoef ep : ℕ → ℚ) (ref alt : ℕ → ℕ) (nInd : ℕ) (index : ℕ) : ℚ :=
  bcoef index * (1 - ep (index / nInd)) ^ ref index * ep (index / nInd) ^ alt index

/-- The flat Kbb table of ll_fs_scaled_err_c (lines 93-99):
Kbb = bcoef * (1 - ep[snp])^alt * ep[snp]^ref. -/
def kbbFlat (bcoef ep : ℕ → ℚ) (ref alt : ℕ → ℕ) (nInd : ℕ) (index : ℕ) : ℚ :=
  bcoef index * (1 - ep (index / nInd)) ^ alt index * ep (index / nInd) ^ ref index

/-- The emission-density build of ll_fs_up_ss_scaled_err_c (lines 270-274):
scalar error rate, a direct map over the flat index space. -/
def kaaFlatScalar (bcoef : ℕ → ℚ) (ep : ℚ) (ref alt : ℕ → ℕ) (index : ℕ) : ℚ :=
  bcoef index * (1 - ep) ^ ref index * ep ^ alt index

/-- Scalar-error-rate Kbb table of ll_fs_up_ss_scaled_err_c (lines 270-274). -/
def kbbFlatScalar (bcoef : ℕ → ℚ) (ep : ℚ) (ref alt : ℕ → ℕ) (index : ℕ) : ℚ :=
  bcoef index * (1 - ep) ^ alt index * ep ^ ref index

/-- Forward initialization at marker 1 (lines 106-115 etc.): alphaDot[s] =
0.25 * Q s, the step weight is the sum of the four alphaDot values, and the
rescaled vector is alphaDot / sum.  Returns (alphaTilde, weight). -/
def fwdInit (Q : Fin 4 → ℚ) : (Fin 4 → ℚ) × ℚ :=
  let aDot : Fin 4 → ℚ := fun s => (1 / 4 : ℚ) * Q s
  let sum : ℚ := ∑ s : Fin 4, aDot s
  (fun s => aDot s / sum, sum)

/-- One forward step at a later marker (lines 123-144 etc.): alphaDot[s2] =
Q s2 * sum over s1 of T s1 s2 * alphaTilde[s1]; the step weight w_new is the
sum of the four alphaDot values; the rescaled vector is alphaDot / w_new.
Returns (new alphaTilde, w_new). -/
def fwdStep (T : Fin 4 → Fin 4 → ℚ) (Q : Fin 4 → ℚ) (aT : Fin 4 → ℚ) :
    (Fin 4 → ℚ) × ℚ :=
  let aDot : Fin 4 → ℚ := fun s2 => Q s2 * ∑ s1 : Fin 4, T s1 s2 * aT s1
  let w : ℚ := ∑ s2 : Fin 4, aDot s2
  (fun s2 => aDot s2 / w, w)

/-- The forward recursion over markers 0..n (0-based): Q snp is the emission
column at marker snp, T snp the transition entering marker snp (snp >= 1).
Returns the current alphaTilde and the list of all step weights so far. -/
def fwdSnps (T : ℕ → Fin 4 → Fin 4 → ℚ) (Q : ℕ → Fin 4 → ℚ) :
    ℕ → ((Fin 4 → ℚ) × List ℚ)
  | 0 => ((fwdInit (Q 0)).1, [(fwdInit (Q 0)).2])
  | n + 1 =>
      let prev := fwdSnps T Q n
      let step := fwdStep (T (n + 1)) (Q (n + 1)) prev.1
      (step.1, prev.2 ++ [step.2])

/-- The per-individual weight list for a likelihood evaluation over nSnps
markers: the C code always runs the marker-1 block and then markers
1..nSnps-1, so nSnps = 0 follows the same control flow as nSnps = 1. -/
def indWeights (T : ℕ → Fin 4 → Fin 4 → ℚ) (Q : ℕ → Fin 4 → ℚ) (nSnps : ℕ) :
    List ℚ :=
  (fwdSnps T Q (nSnps - 1)).2

/-- An individual's log-likelihood contribution: the sum of lg applied to
each of its step weights (the C accumulator llval restricted to one
individual, with log kept abstract as lg). -/
def indContrib (lg : ℚ → ℚ) (T : ℕ → Fin 4 → Fin 4 → ℚ) (Q : ℕ → Fin 4 → ℚ)
    (nSnps : ℕ) : ℚ :=
  ((indWeights T Q nSnps).map lg).sum

/-- Emission column of ll_fs_scaled_err_c for individual ind at marker snp
(lines 109 and 131): Qentry applied to the marker's OPGP code and the three
flat emission tables at flat index ind + nInd * snp, with state passed as
s + 1. -/
def Qcol (Qentry : ℤ → ℚ → ℚ → ℚ → ℕ → ℚ) (OPGP : ℕ → ℤ)
    (Kaa Kab Kbb : ℕ → ℚ) (nInd ind : ℕ) : ℕ → Fin 4 → ℚ :=
  fun snp s =>
    Qentry (OPGP snp) (Kaa (ind + nInd * snp)) (Kab (ind + nInd * snp))
      (Kbb (ind + nInd * snp)) (s.val + 1)

/-- Transition schedule of ll_fs_scaled_err_c (line 128): entering marker
snp uses Tmat with the single recombination fraction r[snp - 1]. -/
def Tsched (r : ℕ → ℚ) : ℕ → Fin 4 → Fin 4 → ℚ :=
  fun snp s1 s2 => Tmat s1 s2 (r (snp - 1))

/-- Transition schedule of the sex-specific variants (lines 202 and 305):
entering marker snp uses Tmat_ss with the paternal fraction r[snp - 1] and
the maternal fraction r[snp - 1 + nSnps - 1] from the single flat vector. -/
def TschedSS (r : ℕ → ℚ) (nSnps : ℕ) : ℕ → Fin 4 → Fin 4 → ℚ :=
  fun snp s1 s2 => Tmat_ss s1 s2 (r (snp - 1)) (r (snp - 1 + nSnps - 1))

/-- ll_fs_scaled_err_c (lines 53-152): builds the flat Kaa/Kbb tables from
bcoef, the per-marker error rates and the read counts, runs the scaled
forward recursion for every individual, and returns the negated sum of all
individuals' contributions. -/
def ll_fs_scaled_err_c (lg : ℚ → ℚ) (Qentry : ℤ → ℚ → ℚ → ℚ → ℕ → ℚ)
    (r ep : ℕ → ℚ) (ref alt : ℕ → ℕ) (bcoef_mat Kab : ℕ → ℚ) (OPGP : ℕ → ℤ)
    (nInd nSnps : ℕ) : ℚ :=
  -1 * ∑ ind ∈ Finset.range nInd,
    indContrib lg (Tsched r)
      (Qcol Qentry OPGP (kaaFlat bcoef_mat ep ref alt nInd) Kab
        (kbbFlat bcoef_mat ep ref alt nInd) nInd ind) nSnps

/-- ll_fs_ss_scaled_err_c (lines 158-225): phased sex-specific variant; the
three emission tables are supplied directly and the flat recombination
vector holds the paternal block first. -/
def ll_fs_ss_scaled_err_c (lg : ℚ → ℚ) (Qentry : ℤ → ℚ → ℚ → ℚ → ℕ → ℚ)
    (r : ℕ → ℚ) (Kaa Kab Kbb : ℕ → ℚ) (OPGP : ℕ → ℤ) (nInd nSnps : ℕ) : ℚ :=
  -1 * ∑ ind ∈ Finset.range nInd,
    indContrib lg (TschedSS r nSnps)
      (Qcol Qentry OPGP Kaa Kab Kbb nInd ind) nSnps

/-- ll_fs_up_ss_scaled_err_c (lines 232-329): unphased sex-specific variant
with a scalar error rate; the emission lookup Qentry_up is keyed by the
per-marker segregation type (config). -/
def ll_fs_up_ss_scaled_err_c (lg : ℚ → ℚ)
    (Qentry_up : ℤ → ℚ → ℚ → ℚ → ℕ → ℚ) (r : ℕ → ℚ) (bcoef_mat : ℕ → ℚ)
    (ep : ℚ) (ref alt : ℕ → ℕ) (Kab : ℕ → ℚ) (config : ℕ → ℤ)
    (nInd nSnps : ℕ) : ℚ :=
  -1 * ∑ ind ∈ Finset.range nInd,
    indContrib lg (TschedSS r nSnps)
      (Qcol Qentry_up config (kaaFlatScalar bcoef_mat ep ref alt) Kab
        (kbbFlatScalar bcoef_mat ep ref alt) nInd ind) nSnps

/-- The thread-count normalization shared by ll_fs_scaled_err_c (lines
77-86) and ll_fs_up_ss_scaled_err_c (lines 255-264): a requested value of 0
or less becomes maxThreads, a value above maxThreads is capped. -/
def normThreads (requested maxThreads : ℤ) : ℤ :=
  if requested ≤ 0 then maxThreads
  else if requested > maxThreads then maxThreads
  else requested

/-- Spec-side definition, following the spec words of the scaled forward
recursion: at marker 1, alphaDot[s] = 0.25 * emission(1, s), the accumulator
starts at lg(sum of the four alphaDot values) and alphaTilde = alphaDot/sum;
entering each later marker, alphaDot[s2] = emission * (sum over s1 of
transition * alphaTilde[s1]), w_new is the total, lg(w_new) is added to the
accumulator, and alphaTilde is rescaled by w_new.  Returns (alphaTilde,
accumulator) after markers 0..n; to be compared with the code-side fwdSnps. -/
def specForward (lg : ℚ → ℚ) (T : ℕ → Fin 4 → Fin 4 → ℚ)
    (Q : ℕ → Fin 4 → ℚ) : ℕ → ((Fin 4 → ℚ) × ℚ)
  | 0 =>
      let aDot : Fin 4 → ℚ := fun s => (1 / 4 : ℚ) * Q 0 s
      let sum : ℚ := ∑ s : Fin 4, aDot s
      (fun s => aDot s / sum, lg sum)
  | n + 1 =>
      let prev := specForward lg T Q n
      let aDot : Fin 4 → ℚ :=
        fun s2 => Q (n + 1) s2 * ∑ s1 : Fin 4, T (n + 1) s1 s2 * prev.1 s1
      let w : ℚ := ∑ s2 : Fin 4, aDot s2
      (fun s2 => aDot s2 / w, prev.2 + lg w)

/-- An IEEE-style value for the log accumulator: either negative infinity or
a finite value.  Models the fact that the C double log(0) is -Inf and that
adding -Inf to any finite value stays -Inf. -/
inductive ExtD where
  | ninf : ExtD
  | fin : ℚ → ExtD
deriving DecidableEq, Repr

/-- Addition on Ext: -Inf absorbs, finite values add. -/
def ExtD.add : ExtD → ExtD → ExtD
  | .ninf, _ => .ninf
  | _, .ninf => .ninf
  | .fin a, .fin b => .fin (a + b)

/-- The C log on nonnegative doubles with IEEE semantics at 0: log 0 = -Inf
and the (abstract) finite value lg x elsewhere. -/
def elog (lg : ℚ → ℚ) (x : ℚ) : ExtD :=
  if x = 0 then .ninf else .fin (lg x)

/-- An individual's log-likelihood contribution with IEEE -Inf tracking:
fold the elog of every step weight into the accumulator, starting at 0,
exactly as the C llval accumulation does per individual. -/
def extContrib (lg : ℚ → ℚ) (ws : List ℚ) : ExtD :=
  ws.foldl (fun acc w => ExtD.add acc (elog lg w)) (.fin 0)

/-- The formal parameter list of ll_fs_scaled_err_c (lines 53-54). -/
def ll_fs_scaled_err_c_params : List String :=
  ["r", "ep", "ref", "alt", "bcoef_mat", "Kab", "OPGP", "nInd", "nSnps",
   "nThreads"]

/-- The formal parameter list of ll_fs_ss_scaled_err_c (line 158). -/
def ll_fs_ss_scaled_err_c_params : List String :=
  ["r", "Kaa", "Kab", "Kbb", "OPGP", "nInd", "nSnps"]

/-- The formal parameter list of ll_fs_up_ss_scaled_err_c (line 232). -/
def ll_fs_up_ss_scaled_err_c_params : List String :=
  ["r", "bcoef_mat", "ep", "ref", "alt", "Kab", "config", "nInd", "nSnps",
   "nThreads"]

/-- Spec-side definition for the sex-specific recombination layout: the
paternal and maternal fraction sequences supplied as two separate vectors,
the transition entering marker snp reading the paternal value at snp - 1 and
the maternal value at snp - 1. -/
def TschedTwoVec (rpat rmat : ℕ → ℚ) : ℕ → Fin 4 → Fin 4 → ℚ :=
  fun snp s1 s2 => Tmat_ss s1 s2 (rpat (snp - 1)) (rmat (snp - 1))

/-! ## Helper lemmas -/

/-- Decoding a flat individual-major index: the marker of cell
ind + nInd * snp is snp whenever ind < nInd. -/
lemma flat_index_div (ind nInd snp : ℕ) (h : ind < nInd) :
    (ind + nInd * snp) / nInd = snp := by
  have hpos : 0 < nInd := lt_of_le_of_lt (Nat.zero_le ind) h
  rw [Nat.add_mul_div_left ind snp hpos, Nat.div_eq_of_lt h, Nat.zero_add]

/-- The code-side forward recursion (weight list) agrees with the spec-side
recursion (running accumulator): states coincide and the lg-sum of the
weight list equals the accumulator. -/
lemma fwdSnps_agrees_specForward (lg : ℚ → ℚ) (T : ℕ → Fin 4 → Fin 4 → ℚ)
    (Q : ℕ → Fin 4 → ℚ) (n : ℕ) :
    (fwdSnps T Q n).1 = (specForward lg T Q n).1 ∧
      ((fwdSnps T Q n).2.map lg).sum = (specForward lg T Q n).2 := by
  induction n with
  | zero => exact ⟨rfl, by simp [fwdSnps, specForward, fwdInit]⟩
  | succ n ih =>
      constructor
      · show (fwdStep (T (n + 1)) (Q (n + 1)) (fwdSnps T Q n).1).1 = _
        rw [ih.1]; rfl
      · show (((fwdSnps T Q n).2 ++
            [(fwdStep (T (n + 1)) (Q (n + 1)) (fwdSnps T Q n).1).2]).map lg).sum = _
        rw [List.map_append, List.sum_append, ih.1]
        simp only [List.map_cons, List.map_nil, List.sum_cons, List.sum_nil,
          add_zero]
        rw [ih.2]; rfl

/-- fwdSnps only consults the transition schedule at markers 1 and above. -/
lemma fwdSnps_congrT (T T' : ℕ → Fin 4 → Fin 4 → ℚ) (Q : ℕ → Fin 4 → ℚ)
    (h : ∀ snp, 1 ≤ snp → T snp = T' snp) (n : ℕ) :
    fwdSnps T Q n = fwdSnps T' Q n := by
  induction n with
  | zero => rfl
  | succ n ih =>
      show ((fwdStep (T (n + 1)) (Q (n + 1)) (fwdSnps T Q n).1).1,
          (fwdSnps T Q n).2 ++
            [(fwdStep (T (n + 1)) (Q (n + 1)) (fwdSnps T Q n).1).2]) =
        ((fwdStep (T' (n + 1)) (Q (n + 1)) (fwdSnps T' Q n).1).1,
          (fwdSnps T' Q n).2 ++
            [(fwdStep (T' (n + 1)) (Q (n + 1)) (fwdSnps T' Q n).1).2])
      rw [ih, h (n + 1) (Nat.le_add_left 1 n)]

/-- Adding anything to -Inf stays -Inf. -/
lemma ExtD.add_ninf (a : ExtD) : ExtD.add a .ninf = .ninf := by
  cases a <;> rfl

/-- -Inf absorbs on the left as well. -/
lemma ExtD.ninf_add (x : ExtD) : ExtD.add .ninf x = .ninf := by
  cases x <;> rfl

/-- A foldl of Ext additions starting from -Inf stays -Inf. -/
lemma extFold_ninf (lg : ℚ → ℚ) (ws : List ℚ) :
    ws.foldl (fun acc w => ExtD.add acc (elog lg w)) .ninf = .ninf := by
  induction ws with
  | nil => rfl
  | cons w ws ih =>
      rw [List.foldl_cons, ExtD.ninf_add]
      exact ih

/-! ## Claim theorems -/

/-- C4: for every source hidden state s1 and every recombination fraction r
(or pair rp, rm in the sex-specific variant), the four transition
probabilities over destination states returned by Tmat (resp. Tmat_ss) sum
to 1. -/
theorem transition_rows_sum_to_one (s1 : Fin 4) (r rp rm : ℚ) :
    (∑ s2 : Fin 4, Tmat s1 s2 r = 1) ∧
      (∑ s2 : Fin 4, Tmat_ss s1 s2 rp rm = 1) := by
  fin_cases s1 <;>
    constructor <;>
      · simp only [Tmat, Tmat_ss, Fin.sum_univ_four, stateBits, flipProb]
        norm_num
        ring

/-- C5: whenever the step weight (the sum of the four alphaDot values) is
positive, the rescaled forward vector alphaTilde sums to 1, both at the
initialization step and at every later forward step. -/
theorem alphaTilde_normalized (T : Fin 4 → Fin 4 → ℚ) (Q1 Q2 aT : Fin 4 → ℚ)
    (h1 : 0 < (fwdInit Q1).2) (h2 : 0 < (fwdStep T Q2 aT).2) :
    (∑ s : Fin 4, (fwdInit Q1).1 s = 1) ∧
      (∑ s : Fin 4, (fwdStep T Q2 aT).1 s = 1) := by
  constructor
  · show ∑ s : Fin 4, (1 / 4 * Q1 s) / (∑ t : Fin 4, 1 / 4 * Q1 t) = 1
    rw [← Finset.sum_div]
    exact div_self (ne_of_gt h1)
  · show ∑ s : Fin 4,
        (Q2 s * ∑ t : Fin 4, T t s * aT t) /
          (∑ u : Fin 4, Q2 u * ∑ t : Fin 4, T t u * aT t) = 1
    rw [← Finset.sum_div]
    exact div_self (ne_of_gt h2)

/-- Witness for C5 at a concrete input. -/
theorem alphaTilde_normalized_witness :
    (∑ s : Fin 4, (fwdInit fun _ => 1).1 s = 1) ∧
      (∑ s : Fin 4, (fwdStep (fun _ _ => 1) (fun _ => 1) fun _ => 1).1 s = 1) :=
  alphaTilde_normalized (fun _ _ => 1) (fun _ => 1) (fun _ => 1) (fun _ => 1)
    (by norm_num [fwdInit, Fin.sum_univ_four])
    (by norm_num [fwdStep, Fin.sum_univ_four])

/-- C7: the effective worker count is silently normalized: a request of 0 or
less becomes the hardware maximum, a request above the maximum is capped,
and the result always lies in [1, maxThreads]. -/
theorem thread_count_clamped (requested maxThreads : ℤ)
    (h : 1 ≤ maxThreads) :
    (requested ≤ 0 → normThreads requested maxThreads = maxThreads) ∧
      (maxThreads < requested → normThreads requested maxThreads = maxThreads) ∧
      1 ≤ normThreads requested maxThreads ∧
      normThreads requested maxThreads ≤ maxThreads := by
  unfold normThreads
  split
  · exact ⟨fun _ => rfl, fun _ => rfl, h, le_refl _⟩
  · split
    · refine ⟨fun hc => absurd hc (by omega), fun _ => rfl, h, le_refl _⟩
    · refine ⟨fun hc => absurd hc (by omega), fun hc => absurd hc (by omega),
        by omega, by omega⟩

/-- Witness for C7 at a concrete input. -/
theorem thread_count_clamped_witness :
    ((0:ℤ) ≤ 0 → normThreads 0 8 = 8) ∧ ((8:ℤ) < 0 → normThreads 0 8 = 8) ∧
      (1:ℤ) ≤ normThreads 0 8 ∧ normThreads 0 8 ≤ 8 :=
  thread_count_clamped 0 8 (by decide)

/-- C1: for every individual, each likelihood variant computes its
log-likelihood contribution by the scaled forward recursion of the spec:
alphaDot[s] = 0.25 * emission at marker 1, accumulator starting at lg(sum),
then for each later marker alphaDot[s2] = emission * sum of transition *
alphaTilde, lg(w_new) added and alphaTilde rescaled (specForward); the
code-side contribution of each of the three variants equals it. -/
theorem forward_recursion_matches_spec (lg : ℚ → ℚ)
    (Qentry Qentry_up : ℤ → ℚ → ℚ → ℚ → ℕ → ℚ) (r ep : ℕ → ℚ) (epc : ℚ)
    (ref alt : ℕ → ℕ) (bcoef Kab Kaa Kbb : ℕ → ℚ) (OPGP config : ℕ → ℤ)
    (nInd nSnps ind : ℕ) :
    (indContrib lg (Tsched r)
        (Qcol Qentry OPGP (kaaFlat bcoef ep ref alt nInd) Kab
          (kbbFlat bcoef ep ref alt nInd) nInd ind) nSnps =
      (specForward lg (Tsched r)
        (Qcol Qentry OPGP (kaaFlat bcoef ep ref alt nInd) Kab
          (kbbFlat bcoef ep ref alt nInd) nInd ind) (nSnps - 1)).2) ∧
    (indContrib lg (TschedSS r nSnps)
        (Qcol Qentry OPGP Kaa Kab Kbb nInd ind) nSnps =
      (specForward lg (TschedSS r nSnps)
        (Qcol Qentry OPGP Kaa Kab Kbb nInd ind) (nSnps - 1)).2) ∧
    (indContrib lg (TschedSS r nSnps)
        (Qcol Qentry_up config (kaaFlatScalar bcoef epc ref alt) Kab
          (kbbFlatScalar bcoef epc ref alt) nInd ind) nSnps =
      (specForward lg (TschedSS r nSnps)
        (Qcol Qentry_up config (kaaFlatScalar bcoef epc ref alt) Kab
          (kbbFlatScalar bcoef epc ref alt) nInd ind) (nSnps - 1)).2) :=
  ⟨(fwdSnps_agrees_specForward lg _ _ (nSnps - 1)).2,
   (fwdSnps_agrees_specForward lg _ _ (nSnps - 1)).2,
   (fwdSnps_agrees_specForward lg _ _ (nSnps - 1)).2⟩

/-- C2: for every (individual, marker) cell the precomputed emission
densities satisfy Kaa = bcoef * (1-ep)^ref * ep^alt and Kbb = bcoef *
(1-ep)^alt * ep^ref, in the per-marker error-rate variant (kaaFlat/kbbFlat
at the cell's flat index, with the marker's error rate) and the
shared-scalar variant (kaaFlatScalar/kbbFlatScalar); and zero counts yield
bcoef itself. -/
theorem emission_density_formulas (bcoef ep : ℕ → ℚ) (epc : ℚ)
    (ref alt : ℕ → ℕ) (nInd ind snp i : ℕ) (h : ind < nInd) :
    (kaaFlat bcoef ep ref alt nInd (ind + nInd * snp) =
      bcoef (ind + nInd * snp) * (1 - ep snp) ^ ref (ind + nInd * snp) *
        ep snp ^ alt (ind + nInd * snp)) ∧
    (kbbFlat bcoef ep ref alt nInd (ind + nInd * snp) =
      bcoef (ind + nInd * snp) * (1 - ep snp) ^ alt (ind + nInd * snp) *
        ep snp ^ ref (ind + nInd * snp)) ∧
    (kaaFlatScalar bcoef epc ref alt i =
      bcoef i * (1 - epc) ^ ref i * epc ^ alt i) ∧
    (kbbFlatScalar bcoef epc ref alt i =
      bcoef i * (1 - epc) ^ alt i * epc ^ ref i) ∧
    (kaaFlat bcoef ep (fun _ => 0) (fun _ => 0) nInd (ind + nInd * snp) =
      bcoef (ind + nInd * snp)) ∧
    (kaaFlatScalar bcoef epc (fun _ => 0) (fun _ => 0) i = bcoef i) := by
  refine ⟨?_, ?_, rfl, rfl, ?_, ?_⟩
  · unfold kaaFlat
    rw [flat_index_div ind nInd snp h]
  · unfold kbbFlat
    rw [flat_index_div ind nInd snp h]
  · unfold kaaFlat
    simp
  · unfold kaaFlatScalar
    simp

/-- Witness for C2 at a concrete input. -/
theorem emission_density_formulas_witness :
    (kaaFlat (fun _ => 5) (fun _ => 1/3) (fun _ => 2) (fun _ => 1) 2
        (1 + 2 * 3) =
      (fun _ : ℕ => (5:ℚ)) (1 + 2 * 3) *
        (1 - (fun _ : ℕ => (1/3:ℚ)) 3) ^ (fun _ : ℕ => 2) (1 + 2 * 3) *
        ((fun _ : ℕ => (1/3:ℚ)) 3) ^ (fun _ : ℕ => 1) (1 + 2 * 3)) ∧
    (kbbFlat (fun _ => 5) (fun _ => 1/3) (fun _ => 2) (fun _ => 1) 2
        (1 + 2 * 3) =
      (fun _ : ℕ => (5:ℚ)) (1 + 2 * 3) *
        (1 - (fun _ : ℕ => (1/3:ℚ)) 3) ^ (fun _ : ℕ => 1) (1 + 2 * 3) *
        ((fun _ : ℕ => (1/3:ℚ)) 3) ^ (fun _ : ℕ => 2) (1 + 2 * 3)) ∧
    (kaaFlatScalar (fun _ => 5) (1/4) (fun _ => 2) (fun _ => 1) 9 =
      (fun _ : ℕ => (5:ℚ)) 9 * (1 - (1/4:ℚ)) ^ (fun _ : ℕ => 2) 9 *
        ((1/4:ℚ)) ^ (fun _ : ℕ => 1) 9) ∧
    (kbbFlatScalar (fun _ => 5) (1/4) (fun _ => 2) (fun _ => 1) 9 =
      (fun _ : ℕ => (5:ℚ)) 9 * (1 - (1/4:ℚ)) ^ (fun _ : ℕ => 1) 9 *
        ((1/4:ℚ)) ^ (fun _ : ℕ => 2) 9) ∧
    (kaaFlat (fun _ => 5) (fun _ => 1/3) (fun _ => 0) (fun _ => 0) 2
        (1 + 2 * 3) =
      (fun _ : ℕ => (5:ℚ)) (1 + 2 * 3)) ∧
    (kaaFlatScalar (fun _ => 5) (1/4) (fun _ => 0) (fun _ => 0) 9 =
      (fun _ : ℕ => (5:ℚ)) 9) :=
  emission_density_formulas (fun _ => 5) (fun _ => 1/3) (1/4) (fun _ => 2)
    (fun _ => 1) 2 1 3 9 (by decide)

/-- A fold of the llval accumulator over a weight list containing a zero
weight ends at -Inf, from any starting accumulator. -/
lemma extFold_zero_mem (lg : ℚ → ℚ) (ws : List ℚ) (acc : ExtD)
    (h : 0 ∈ ws) :
    ws.foldl (fun a w => ExtD.add a (elog lg w)) acc = .ninf := by
  induction ws generalizing acc with
  | nil => cases h
  | cons w rest ih =>
      rw [List.foldl_cons]
      rcases List.mem_cons.mp h with h0 | hrest
      · have hw : elog lg w = .ninf := by rw [← h0]; rfl
        rw [hw, ExtD.add_ninf]
        exact extFold_ninf lg rest
      · exact ih _ hrest

/-- C9: all flat per-(individual, marker) tables are addressed
individual-major: the cell of individual ind at marker snp lives at flat
index ind + snp * nInd, the read index ind + nInd * snp used by the
emission lookup is the same number, and reading the Kaa/Kbb tables there
recovers exactly the (ind, snp) cell written by the build loop (with the
marker's error rate). -/
theorem individual_major_layout (Qentry : ℤ → ℚ → ℚ → ℚ → ℕ → ℚ)
    (OPGP : ℕ → ℤ) (bcoef ep Kab : ℕ → ℚ) (ref alt : ℕ → ℕ)
    (nInd ind snp : ℕ) (s : Fin 4) (h : ind < nInd) :
    (ind + snp * nInd = ind + nInd * snp) ∧
    (Qcol Qentry OPGP (kaaFlat bcoef ep ref alt nInd) Kab
        (kbbFlat bcoef ep ref alt nInd) nInd ind snp s =
      Qentry (OPGP snp) (kaaFlat bcoef ep ref alt nInd (ind + snp * nInd))
        (Kab (ind + snp * nInd))
        (kbbFlat bcoef ep ref alt nInd (ind + snp * nInd)) (s.val + 1)) ∧
    (kaaFlat bcoef ep ref alt nInd (ind + snp * nInd) =
      bcoef (ind + snp * nInd) * (1 - ep snp) ^ ref (ind + snp * nInd) *
        ep snp ^ alt (ind + snp * nInd)) ∧
    (kbbFlat bcoef ep ref alt nInd (ind + snp * nInd) =
      bcoef (ind + snp * nInd) * (1 - ep snp) ^ alt (ind + snp * nInd) *
        ep snp ^ ref (ind + snp * nInd)) := by
  have hmul : ind + snp * nInd = ind + nInd * snp := by
    rw [Nat.mul_comm]
  refine ⟨hmul, by rw [hmul]; rfl, ?_, ?_⟩
  · unfold kaaFlat
    rw [hmul, flat_index_div ind nInd snp h]
  · unfold kbbFlat
    rw [hmul, flat_index_div ind nInd snp h]

/-- Witness for C9 at a concrete input. -/
theorem individual_major_layout_witness :
    ((1:ℕ) + 2 * 3 = 1 + 3 * 2) ∧
    (Qcol (fun _ a _ _ _ => a) (fun _ => 0)
        (kaaFlat (fun _ => 5) (fun _ => 1/3) (fun _ => 2) (fun _ => 1) 3)
        (fun _ => 7)
        (kbbFlat (fun _ => 5) (fun _ => 1/3) (fun _ => 2) (fun _ => 1) 3)
        3 1 2 0 =
      (fun _ a _ _ _ => a) ((fun _ : ℕ => (0:ℤ)) 2)
        (kaaFlat (fun _ => 5) (fun _ => 1/3) (fun _ => 2) (fun _ => 1) 3
          (1 + 2 * 3))
        ((fun _ : ℕ => (7:ℚ)) (1 + 2 * 3))
        (kbbFlat (fun _ => 5) (fun _ => 1/3) (fun _ => 2) (fun _ => 1) 3
          (1 + 2 * 3)) ((0:Fin 4).val + 1)) ∧
    (kaaFlat (fun _ => 5) (fun _ => 1/3) (fun _ => 2) (fun _ => 1) 3
        (1 + 2 * 3) =
      (fun _ : ℕ => (5:ℚ)) (1 + 2 * 3) *
        (1 - (fun _ : ℕ => (1/3:ℚ)) 2) ^ (fun _ : ℕ => 2) (1 + 2 * 3) *
        ((fun _ : ℕ => (1/3:ℚ)) 2) ^ (fun _ : ℕ => 1) (1 + 2 * 3)) ∧
    (kbbFlat (fun _ => 5) (fun _ => 1/3) (fun _ => 2) (fun _ => 1) 3
        (1 + 2 * 3) =
      (fun _ : ℕ => (5:ℚ)) (1 + 2 * 3) *
        (1 - (fun _ : ℕ => (1/3:ℚ)) 2) ^ (fun _ : ℕ => 1) (1 + 2 * 3) *
        ((fun _ : ℕ => (1/3:ℚ)) 2) ^ (fun _ : ℕ => 2) (1 + 2 * 3)) :=
  individual_major_layout (fun _ a _ _ _ => a) (fun _ => 0) (fun _ => 5)
    (fun _ => 1/3) (fun _ => 7) (fun _ => 2) (fun _ => 1) 3 1 2 0
    (by decide)

/-- C6: when some marker step's total weight is exactly 0, the accumulation
adds log(0) = -Inf, so the individual's log-likelihood contribution (under
IEEE semantics, modelled by ExtD) is -Inf rather than an error; the
evaluation still produces a value. -/
theorem zero_weight_gives_neg_inf (lg : ℚ → ℚ)
    (T : ℕ → Fin 4 → Fin 4 → ℚ) (Q : ℕ → Fin 4 → ℚ) (nSnps : ℕ)
    (h : 0 ∈ indWeights T Q nSnps) :
    extContrib lg (indWeights T Q nSnps) = .ninf :=
  extFold_zero_mem lg (indWeights T Q nSnps) (.fin 0) h

/-- Witness for C6: with all emissions driven to 0, the first step weight is
0 and the contribution is -Inf. -/
theorem zero_weight_gives_neg_inf_witness :
    extContrib id (indWeights (fun _ _ _ => 0) (fun _ _ => 0) 1) =
      ExtD.ninf :=
  zero_weight_gives_neg_inf id (fun _ _ _ => 0) (fun _ _ => 0) 1
    (by norm_num [indWeights, fwdSnps, fwdInit])

/-- C8 counterexample: the phased sex-specific overload
ll_fs_ss_scaled_err_c does not take an nThreads parameter (line 158 of the
source), so it is not true that each of the three overloads accepts a
requestedThreads parameter. -/
theorem ss_overload_lacks_nThreads :
    "nThreads" ∉ ll_fs_ss_scaled_err_c_params := by decide

/-- C8 amended: the phased non-sex-specific and the unphased sex-specific
overloads accept an nThreads parameter, where a request of 0 means use all
available threads; the phased sex-specific overload takes none. -/
theorem nThreads_in_two_overloads :
    "nThreads" ∈ ll_fs_scaled_err_c_params ∧
      "nThreads" ∈ ll_fs_up_ss_scaled_err_c_params ∧
      "nThreads" ∉ ll_fs_ss_scaled_err_c_params ∧
      ∀ m : ℤ, normThreads 0 m = m := by
  refine ⟨by decide, by decide, by decide, fun m => ?_⟩
  unfold normThreads
  simp

/-- Extracting one individual's columns from the flat phased-variant tables:
evaluating the emission column with nInd = 1 on the extracted columns gives
that individual's emission column in the full evaluation. -/
lemma Qcol_extract_v1 (Qentry : ℤ → ℚ → ℚ → ℚ → ℕ → ℚ) (OPGP : ℕ → ℤ)
    (bcoef ep Kab : ℕ → ℚ) (ref alt : ℕ → ℕ) (nInd ind : ℕ)
    (h : ind < nInd) :
    Qcol Qentry OPGP
        (kaaFlat (fun i => bcoef (ind + nInd * i)) ep
          (fun i => ref (ind + nInd * i)) (fun i => alt (ind + nInd * i)) 1)
        (fun i => Kab (ind + nInd * i))
        (kbbFlat (fun i => bcoef (ind + nInd * i)) ep
          (fun i => ref (ind + nInd * i)) (fun i => alt (ind + nInd * i)) 1)
        1 0 =
      Qcol Qentry OPGP (kaaFlat bcoef ep ref alt nInd) Kab
        (kbbFlat bcoef ep ref alt nInd) nInd ind := by
  funext snp s
  simp only [Qcol, kaaFlat, kbbFlat, Nat.zero_add, Nat.one_mul, Nat.div_one,
    flat_index_div ind nInd snp h]

/-- Same extraction for a variant whose emission tables are supplied
directly (the phased sex-specific variant). -/
lemma Qcol_extract_direct (Qentry : ℤ → ℚ → ℚ → ℚ → ℕ → ℚ) (OPGP : ℕ → ℤ)
    (Kaa Kab Kbb : ℕ → ℚ) (nInd ind : ℕ) :
    Qcol Qentry OPGP (fun i => Kaa (ind + nInd * i))
        (fun i => Kab (ind + nInd * i)) (fun i => Kbb (ind + nInd * i))
        1 0 =
      Qcol Qentry OPGP Kaa Kab Kbb nInd ind := by
  funext snp s
  simp only [Qcol, Nat.zero_add, Nat.one_mul]

/-- Same extraction for the scalar-error-rate tables (the unphased
sex-specific variant). -/
lemma Qcol_extract_scalar (Qentry_up : ℤ → ℚ → ℚ → ℚ → ℕ → ℚ)
    (config : ℕ → ℤ) (bcoef Kab : ℕ → ℚ) (epc : ℚ) (ref alt : ℕ → ℕ)
    (nInd ind : ℕ) :
    Qcol Qentry_up config
        (kaaFlatScalar (fun i => bcoef (ind + nInd * i)) epc
          (fun i => ref (ind + nInd * i)) (fun i => alt (ind + nInd * i)))
        (fun i => Kab (ind + nInd * i))
        (kbbFlatScalar (fun i => bcoef (ind + nInd * i)) epc
          (fun i => ref (ind + nInd * i)) (fun i => alt (ind + nInd * i)))
        1 0 =
      Qcol Qentry_up config (kaaFlatScalar bcoef epc ref alt) Kab
        (kbbFlatScalar bcoef epc ref alt) nInd ind := by
  funext snp s
  simp only [Qcol, kaaFlatScalar, kbbFlatScalar, Nat.zero_add, Nat.one_mul]

/-- C3: in every variant the returned scalar is the negation of the
unweighted sum of the per-individual contributions: the full evaluation
equals the sum over individuals of the same evaluator run on that
individual alone (nInd = 1, with the individual's columns extracted from
the flat tables, on the same shared parameters). -/
theorem negll_additive_over_individuals (lg : ℚ → ℚ)
    (Qentry Qentry_up : ℤ → ℚ → ℚ → ℚ → ℕ → ℚ) (r ep : ℕ → ℚ) (epc : ℚ)
    (ref alt : ℕ → ℕ) (bcoef Kab Kaa Kbb : ℕ → ℚ) (OPGP config : ℕ → ℤ)
    (nInd nSnps : ℕ) :
    (ll_fs_scaled_err_c lg Qentry r ep ref alt bcoef Kab OPGP nInd nSnps =
      ∑ ind ∈ Finset.range nInd,
        ll_fs_scaled_err_c lg Qentry r ep (fun i => ref (ind + nInd * i))
          (fun i => alt (ind + nInd * i)) (fun i => bcoef (ind + nInd * i))
          (fun i => Kab (ind + nInd * i)) OPGP 1 nSnps) ∧
    (ll_fs_ss_scaled_err_c lg Qentry r Kaa Kab Kbb OPGP nInd nSnps =
      ∑ ind ∈ Finset.range nInd,
        ll_fs_ss_scaled_err_c lg Qentry r (fun i => Kaa (ind + nInd * i))
          (fun i => Kab (ind + nInd * i)) (fun i => Kbb (ind + nInd * i))
          OPGP 1 nSnps) ∧
    (ll_fs_up_ss_scaled_err_c lg Qentry_up r bcoef epc ref alt Kab config
        nInd nSnps =
      ∑ ind ∈ Finset.range nInd,
        ll_fs_up_ss_scaled_err_c lg Qentry_up r
          (fun i => bcoef (ind + nInd * i)) epc
          (fun i => ref (ind + nInd * i)) (fun i => alt (ind + nInd * i))
          (fun i => Kab (ind + nInd * i)) config 1 nSnps) := by
  refine ⟨?_, ?_, ?_⟩
  · unfold ll_fs_scaled_err_c
    rw [Finset.mul_sum]
    refine Finset.sum_congr rfl (fun ind hind => ?_)
    rw [Finset.range_one, Finset.sum_singleton,
      Qcol_extract_v1 Qentry OPGP bcoef ep Kab ref alt nInd ind
        (Finset.mem_range.mp hind)]
  · unfold ll_fs_ss_scaled_err_c
    rw [Finset.mul_sum]
    refine Finset.sum_congr rfl (fun ind hind => ?_)
    rw [Finset.range_one, Finset.sum_singleton,
      Qcol_extract_direct Qentry OPGP Kaa Kab Kbb nInd ind]
  · unfold ll_fs_up_ss_scaled_err_c
    rw [Finset.mul_sum]
    refine Finset.sum_congr rfl (fun ind hind => ?_)
    rw [Finset.range_one, Finset.sum_singleton,
      Qcol_extract_scalar Qentry_up config bcoef Kab epc ref alt nInd ind]

/-- The sex-specific transition schedule, from marker 1 on, reads the
paternal fraction at snp - 1 and the maternal fraction at (snp - 1) +
(nSnps - 1) of the flat vector: it agrees with the two-vector spec-side
schedule built from the two halves. -/
lemma TschedSS_eq_twoVec (r : ℕ → ℚ) (nSnps : ℕ) (h : 1 ≤ nSnps) (snp : ℕ)
    (hs : 1 ≤ snp) :
    TschedSS r nSnps snp =
      TschedTwoVec (fun g => r g) (fun g => r (g + (nSnps - 1))) snp := by
  funext s1 s2
  unfold TschedSS TschedTwoVec
  have harith : snp - 1 + nSnps - 1 = snp - 1 + (nSnps - 1) := by omega
  rw [harith]

/-- indContrib only consults the transition schedule at markers 1 and
above. -/
lemma indContrib_congrT (lg : ℚ → ℚ) (T T' : ℕ → Fin 4 → Fin 4 → ℚ)
    (Q : ℕ → Fin 4 → ℚ) (nSnps : ℕ) (h : ∀ snp, 1 ≤ snp → T snp = T' snp) :
    indContrib lg T Q nSnps = indContrib lg T' Q nSnps := by
  unfold indContrib indWeights
  rw [fwdSnps_congrT T T' Q h (nSnps - 1)]

/-- C10: in both sex-specific variants the flat recombination vector has the
paternal block first: the evaluation equals one driven by the spec-side
two-vector schedule whose paternal sequence is the first nSnps - 1 entries
and whose maternal sequence starts at offset nSnps - 1. -/
theorem paternal_block_first (lg : ℚ → ℚ)
    (Qentry Qentry_up : ℤ → ℚ → ℚ → ℚ → ℕ → ℚ) (r : ℕ → ℚ)
    (Kaa Kab Kbb bcoef : ℕ → ℚ) (epc : ℚ) (ref alt : ℕ → ℕ)
    (OPGP config : ℕ → ℤ) (nInd nSnps : ℕ) (h : 1 ≤ nSnps) :
    (ll_fs_ss_scaled_err_c lg Qentry r Kaa Kab Kbb OPGP nInd nSnps =
      -1 * ∑ ind ∈ Finset.range nInd,
        indContrib lg
          (TschedTwoVec (fun g => r g) (fun g => r (g + (nSnps - 1))))
          (Qcol Qentry OPGP Kaa Kab Kbb nInd ind) nSnps) ∧
    (ll_fs_up_ss_scaled_err_c lg Qentry_up r bcoef epc ref alt Kab config
        nInd nSnps =
      -1 * ∑ ind ∈ Finset.range nInd,
        indContrib lg
          (TschedTwoVec (fun g => r g) (fun g => r (g + (nSnps - 1))))
          (Qcol Qentry_up config (kaaFlatScalar bcoef epc ref alt) Kab
            (kbbFlatScalar bcoef epc ref alt) nInd ind) nSnps) := by
  constructor
  · unfold ll_fs_ss_scaled_err_c
    refine congrArg _ (Finset.sum_congr rfl (fun ind _ => ?_))
    exact indContrib_congrT lg _ _ _ nSnps
      (fun snp hs => TschedSS_eq_twoVec r nSnps h snp hs)
  · unfold ll_fs_up_ss_scaled_err_c
    refine congrArg _ (Finset.sum_congr rfl (fun ind _ => ?_))
    exact indContrib_congrT lg _ _ _ nSnps
      (fun snp hs => TschedSS_eq_twoVec r nSnps h snp hs)

/-- Witness for C10 at a concrete input. -/
theorem paternal_block_first_witness :
    (ll_fs_ss_scaled_err_c id (fun _ a _ _ _ => a) (fun _ => 1/5)
        (fun _ => 1) (fun _ => 1) (fun _ => 1) (fun _ => 0) 1 1 =
      -1 * ∑ ind ∈ Finset.range 1,
        indContrib id
          (TschedTwoVec (fun g => (fun _ : ℕ => (1/5:ℚ)) g)
            (fun g => (fun _ : ℕ => (1/5:ℚ)) (g + (1 - 1))))
          (Qcol (fun _ a _ _ _ => a) (fun _ => 0) (fun _ => 1) (fun _ => 1)
            (fun _ => 1) 1 ind) 1) ∧
    (ll_fs_up_ss_scaled_err_c id (fun _ a _ _ _ => a) (fun _ => 1/5)
        (fun _ => 1) (1/7) (fun _ => 2) (fun _ => 1) (fun _ => 1)
        (fun _ => 0) 1 1 =
      -1 * ∑ ind ∈ Finset.range 1,
        indContrib id
          (TschedTwoVec (fun g => (fun _ : ℕ => (1/5:ℚ)) g)
            (fun g => (fun _ : ℕ => (1/5:ℚ)) (g + (1 - 1))))
          (Qcol (fun _ a _ _ _ => a) (fun _ => 0)
            (kaaFlatScalar (fun _ => 1) (1/7) (fun _ => 2) (fun _ => 1))
            (fun _ => 1)
            (kbbFlatScalar (fun _ => 1) (1/7) (fun _ => 2) (fun _ => 1))
            1 ind) 1) :=
  paternal_block_first id (fun _ a _ _ _ => a) (fun _ a _ _ _ => a)
    (fun _ => 1/5) (fun _ => 1) (fun _ => 1) (fun _ => 1) (fun _ => 1) (1/7)
    (fun _ => 2) (fun _ => 1) (fun _ => 0) (fun _ => 0) 1 1 (by decide)
